import Mathlib

/-!
Verification of the hlavi-core kanban tracker (ticket domain model and
file-backed storage layer) against its natural-language specification.

Modelling conventions (shallow embedding of the Rust source):
* Rust `String` / `&str` values are `List Char`.  Rust string comparison
  (`str::cmp`) is byte-wise lexicographic on UTF-8, which coincides with
  code-point-wise lexicographic order, so a `List Char` lexicographic
  comparison on `Char.toNat` is faithful.
* `chrono::DateTime<Utc>` is an `Int` (timestamps form a total order and the
  code only compares them); `DateTime::to_rfc3339` is modelled by an
  injective decimal rendering `rfc3339 : Int → List Char`.
* `&mut self` methods returning `Result<(), E>` become pure functions
  `State → args → Option E × State`; an early `return Err(..)` before any
  field assignment yields `(some e, s)` with `s` the unchanged input state.
* `Utc::now()` calls are modelled by an explicit `now : Int` parameter.
-/

namespace Hlavi

/-- The ten decimal digit characters, used to render a `Nat` in base 10
(models Rust's `{}` formatting of unsigned integers). -/
def digitChar : Nat → Char
  | 0 => '0'
  | 1 => '1'
  | 2 => '2'
  | 3 => '3'
  | 4 => '4'
  | 5 => '5'
  | 6 => '6'
  | 7 => '7'
  | 8 => '8'
  | 9 => '9'
  | _ => '*'

/-- Decimal rendering of a natural number, most significant digit first
(models Rust's `format!("{}", n)` for unsigned integers). -/
def natDigits (n : Nat) : List Char :=
  if _h : n < 10 then [digitChar n]
  else natDigits (n / 10) ++ [digitChar (n % 10)]
termination_by n
decreasing_by
  exact Nat.div_lt_self (by omega) (by omega)

/-- Numeric value of a digit string, accumulated left to right exactly as
Rust's integer parsing does. -/
def digitsVal (ds : List Char) : Nat :=
  ds.foldl (fun a c => 10 * a + (c.toNat - 48)) 0

/-- Models Rust's `str::parse::<uN>()` (`u32::from_str` / `usize::from_str`)
with `bound = 2^N`: an optional leading `'+'`, then a non-empty run of ASCII
digits whose value fits in the type.  Rust accumulates with checked
multiply/add; since the running accumulator is the value of a prefix of the
digit string and prefix values are non-decreasing, the checked arithmetic
overflows iff the full value exceeds the type's maximum, which is what the
final bound test expresses. -/
def rustParseUnsigned (bound : Nat) (cs : List Char) : Option Nat :=
  let ds : List Char :=
    match cs with
    | c :: rest => if c = '+' then rest else c :: rest
    | [] => []
  if ds.isEmpty then none
  else if ds.all (fun c => c.isDigit) then
    if digitsVal ds < bound then some (digitsVal ds) else none
  else none

/-- One past `u32::MAX`, that is `2^32`. -/
def u32Bound : Nat := 4294967296

/-- One past `usize::MAX`, that is `2^64`, on the 64-bit targets the crate builds for. -/
def usizeBound : Nat := 18446744073709551616

/-- Injective textual rendering of a timestamp, standing in for
`chrono::DateTime::to_rfc3339` (which is injective on timestamps). -/
def rfc3339 (t : Int) : List Char :=
  if t < 0 then '-' :: natDigits t.natAbs else natDigits t.toNat

/-- Prefix test on character lists with propositional equality;
models Rust's `str::starts_with` on the character level. -/
def isPrefixChars : List Char → List Char → Bool
  | [], _ => true
  | _ :: _, [] => false
  | x :: xs, y :: ys => decide (x = y) && isPrefixChars xs ys

/-- Substring test: models Rust's `str::contains(&other)`.  A UTF-8 byte-level
substring match of valid UTF-8 always falls on character boundaries, so the
character-level test is faithful. -/
def containsSub : List Char → List Char → Bool
  | [], needle => needle.isEmpty
  | c :: rest, needle => isPrefixChars needle (c :: rest) || containsSub rest needle

/-- Models Rust's `str::to_lowercase` restricted to per-character lowering
(the code only relies on it for case-insensitive comparison). -/
def toLowerChars (cs : List Char) : List Char :=
  cs.map Char.toLower

/-- Lexicographic `≤` on character lists by code point; models Rust's
`str::cmp` (byte-wise order, which equals code-point order for UTF-8). -/
def lexLe : List Char → List Char → Bool
  | [], _ => true
  | _ :: _, [] => false
  | x :: xs, y :: ys =>
    if x.toNat < y.toNat then true
    else if y.toNat < x.toNat then false
    else lexLe xs ys

/-- From `error.rs`: `HlaviError`.  String payloads are `List Char`; the wrapped
foreign errors (`std::io::Error`, `serde_json::Error`) are modelled by their
message text.  The `InvalidDateRange` variant is constructed throughout
`ticket.rs` (fields `start`, `end`, both rendered with `to_rfc3339`) though
its declaration is absent from the `error.rs` snapshot; it is reconstructed
here from those construction sites and the spec's `InvalidDateRange{start,end}`. -/
inductive HlaviError where
  | TicketNotFound (id : List Char)
  | BoardNotInitialized
  | InvalidStatusTransition (fromStatus toStatus : List Char)
  | InvalidTicketId (s : List Char)
  | InvalidDateRange (startDate endDate : List Char)
  | StorageError (msg : List Char)
  | IoError (msg : List Char)
  | SerializationError (msg : List Char)
  | ConfigError (msg : List Char)
  | AcceptanceCriteriaNotFound
  | ProjectNotInitialized
  | Other (msg : List Char)
deriving DecidableEq

/-- From `ticket.rs`: `TicketId(String)` — the canonical identifier string. -/
structure TicketId where
  str : List Char
deriving DecidableEq

/-- Models `TicketId::new(counter: u32)`: formats as `HLA{counter}`. -/
def TicketId.new (counter : Nat) : TicketId :=
  ⟨"HLA".data ++ natDigits counter⟩

/-- Models `TicketId::from_str`: requires the (case-sensitive) prefix `"HLA"`,
at least one further character, and that the remainder parses as a `u32`;
on success stores the input string verbatim. -/
def TicketId.fromStr (s : List Char) : Except HlaviError TicketId :=
  if isPrefixChars "HLA".data s ∧ 4 ≤ s.length then
    match rustParseUnsigned u32Bound (s.drop 3) with
    | some _ => .ok ⟨s⟩
    | none => .error (.InvalidTicketId s)
  else .error (.InvalidTicketId s)

/-- From `ticket.rs`: `TicketStatus`. -/
inductive TicketStatus where
  | New
  | Open
  | InProgress
  | Pending
  | Review
  | Done
  | Closed
deriving DecidableEq

/-- Models `impl fmt::Display for TicketStatus`. -/
def TicketStatus.display : TicketStatus → List Char
  | .New => "New".data
  | .Open => "Open".data
  | .InProgress => "In Progress".data
  | .Pending => "Pending".data
  | .Review => "Review".data
  | .Done => "Done".data
  | .Closed => "Closed".data

/-- Models `TicketStatus::can_transition_to`: the explicit edge list, then the
self-loop catch-all, then `false`. -/
def TicketStatus.canTransitionTo : TicketStatus → TicketStatus → Bool
  | .New, .Open => true
  | .Open, .InProgress => true
  | .Open, .Closed => true
  | .InProgress, .Pending => true
  | .InProgress, .Review => true
  | .InProgress, .Open => true
  | .Pending, .Review => true
  | .Pending, .InProgress => true
  | .Review, .Done => true
  | .Review, .InProgress => true
  | .Done, .Closed => true
  | .Done, .InProgress => true
  | a, b => decide (a = b)

/-- From `ticket.rs`: `AcceptanceCriteria`. -/
structure AcceptanceCriteria where
  id : Nat
  description : List Char
  completed : Bool
  created_at : Int
  completed_at : Option Int
deriving DecidableEq

/-- Models `AcceptanceCriteria::new`. -/
def AcceptanceCriteria.new (id : Nat) (description : List Char) (now : Int) :
    AcceptanceCriteria :=
  { id := id
    description := description
    completed := false
    created_at := now
    completed_at := none }

/-- Models `AcceptanceCriteria::mark_completed`. -/
def AcceptanceCriteria.markCompleted (ac : AcceptanceCriteria) (now : Int) :
    AcceptanceCriteria :=
  { ac with completed := true, completed_at := some now }

/-- Models `AcceptanceCriteria::mark_incomplete`. -/
def AcceptanceCriteria.markIncomplete (ac : AcceptanceCriteria) :
    AcceptanceCriteria :=
  { ac with completed := false, completed_at := none }

/-- Models `AcceptanceCriteria::toggle`. -/
def AcceptanceCriteria.toggle (ac : AcceptanceCriteria) (now : Int) :
    AcceptanceCriteria :=
  if ac.completed then ac.markIncomplete else ac.markCompleted now

/-- From `ticket.rs`: `Ticket`. -/
structure Ticket where
  id : TicketId
  title : List Char
  description : Option (List Char)
  status : TicketStatus
  acceptance_criteria : List AcceptanceCriteria
  created_at : Int
  updated_at : Int
  agent_assigned : Bool
  rejection_reason : Option (List Char)
  start_date : Option Int
  end_date : Option Int
deriving DecidableEq

/-- Models `Ticket::new`. -/
def Ticket.new (id : TicketId) (title : List Char) (now : Int) : Ticket :=
  { id := id
    title := title
    description := none
    status := .New
    acceptance_criteria := []
    created_at := now
    updated_at := now
    agent_assigned := false
    rejection_reason := none
    start_date := none
    end_date := none }

/-- Models `Ticket::set_start_date`: validated against an existing end date; the
error is raised before any field is written. -/
def Ticket.setStartDate (t : Ticket) (date now : Int) :
    Option HlaviError × Ticket :=
  match t.end_date with
  | some e =>
    if date > e then
      (some (.InvalidDateRange (rfc3339 date) (rfc3339 e)), t)
    else (none, { t with start_date := some date, updated_at := now })
  | none => (none, { t with start_date := some date, updated_at := now })

/-- Models `Ticket::set_end_date`: validated against an existing start date. -/
def Ticket.setEndDate (t : Ticket) (date now : Int) :
    Option HlaviError × Ticket :=
  match t.start_date with
  | some s =>
    if date < s then
      (some (.InvalidDateRange (rfc3339 s) (rfc3339 date)), t)
    else (none, { t with end_date := some date, updated_at := now })
  | none => (none, { t with end_date := some date, updated_at := now })

/-- Models `Ticket::set_date_range`: sets both dates after the ordering check. -/
def Ticket.setDateRange (t : Ticket) (startDate endDate now : Int) :
    Option HlaviError × Ticket :=
  if startDate > endDate then
    (some (.InvalidDateRange (rfc3339 startDate) (rfc3339 endDate)), t)
  else
    (none, { t with start_date := some startDate, end_date := some endDate,
                    updated_at := now })

/-- Models `Ticket::add_acceptance_criterion`. -/
def Ticket.addAcceptanceCriterion (t : Ticket) (description : List Char)
    (now : Int) : Ticket :=
  { t with
    acceptance_criteria :=
      t.acceptance_criteria ++
        [AcceptanceCriteria.new (t.acceptance_criteria.length + 1) description now]
    updated_at := now }

/-- The description-search fallback of `remove_acceptance_criterion`: remove
the first criterion whose description equals the identifier exactly, else
fail with `AcceptanceCriteriaNotFound`. -/
def removeCriterionByDescription (t : Ticket) (identifier : List Char)
    (now : Int) : Option HlaviError × Ticket :=
  match t.acceptance_criteria.findIdx? (fun ac => decide (ac.description = identifier)) with
  | some pos =>
    (none, { t with acceptance_criteria := t.acceptance_criteria.eraseIdx pos,
                    updated_at := now })
  | none => (some .AcceptanceCriteriaNotFound, t)

/-- Models `Ticket::remove_acceptance_criterion`: first tries the identifier as a
1-based index (`usize` parse, in range, early return), then falls through to
the exact-description search. -/
def Ticket.removeAcceptanceCriterion (t : Ticket) (identifier : List Char)
    (now : Int) : Option HlaviError × Ticket :=
  match rustParseUnsigned usizeBound identifier with
  | some index =>
    if 0 < index ∧ index ≤ t.acceptance_criteria.length then
      (none, { t with acceptance_criteria := t.acceptance_criteria.eraseIdx (index - 1),
                      updated_at := now })
    else removeCriterionByDescription t identifier now
  | none => removeCriterionByDescription t identifier now

/-- Models `Ticket::transition_to`. -/
def Ticket.transitionTo (t : Ticket) (newStatus : TicketStatus)
    (rejectionReason : Option (List Char)) (now : Int) :
    Option HlaviError × Ticket :=
  if ¬ t.status.canTransitionTo newStatus then
    (some (.InvalidStatusTransition t.status.display newStatus.display), t)
  else
    (none, { t with status := newStatus, rejection_reason := rejectionReason,
                    updated_at := now })

/-- Models `Ticket::all_acceptance_criteria_completed`. -/
def Ticket.allAcceptanceCriteriaCompleted (t : Ticket) : Bool :=
  !t.acceptance_criteria.isEmpty && t.acceptance_criteria.all (fun ac => ac.completed)

/-- Models `Ticket::can_mark_done`. -/
def Ticket.canMarkDone (t : Ticket) : Bool :=
  decide (t.status = .Review) && t.allAcceptanceCriteriaCompleted

/-! ### File storage (`file_storage.rs`)

The tickets directory is modelled as the list of tickets persisted in it, in
directory-enumeration order; each ticket's file stem is its canonical
identifier string, so the identifier strings of distinct files are distinct.
-/

/-- Stable insertion of `x` into `l` before the first element it is `≤`;
building block of the sort below. -/
def insertLe (le : α → α → Bool) (x : α) : List α → List α
  | [] => [x]
  | y :: ys => if le x y then x :: y :: ys else y :: insertLe le x ys

/-- Insertion sort by a boolean comparison; models the ascending
`Vec::sort_by(cmp)` call (any comparison sort agrees on lists whose keys are
pairwise distinct, which holds here because file names are unique). -/
def sortByLe (le : α → α → Bool) : List α → List α
  | [] => []
  | x :: xs => insertLe le x (sortByLe le xs)

/-- Comparison used by `list_ticket_ids`: `a.as_str().cmp(b.as_str())`. -/
def ticketIdLe (a b : TicketId) : Bool :=
  lexLe a.str b.str

/-- Models `FileStorage::list_ticket_ids`: the identifiers of the stored tickets,
sorted lexicographically by canonical string. -/
def listTicketIds (store : List Ticket) : List TicketId :=
  sortByLe ticketIdLe (store.map (fun t => t.id))

/-- Models `FileStorage::load_ticket`: the ticket whose file stem equals the id. -/
def loadTicket (store : List Ticket) (id : TicketId) : Except HlaviError Ticket :=
  match store.find? (fun t => decide (t.id = id)) with
  | some t => .ok t
  | none => .error (.TicketNotFound id.str)

/-- The match test of `search_tickets` for one ticket, with the query already
lowered: title, optional description, and every criterion description. -/
def ticketMatches (queryLower : List Char) (t : Ticket) : Bool :=
  let titleMatches := containsSub (toLowerChars t.title) queryLower
  let descriptionMatches :=
    match t.description with
    | some d => containsSub (toLowerChars d) queryLower
    | none => false
  let acMatches :=
    t.acceptance_criteria.any (fun ac => containsSub (toLowerChars ac.description) queryLower)
  titleMatches || descriptionMatches || acMatches

/-- The loop of `search_tickets`: load each listed id in order, keep the
matching tickets, propagate any load error. -/
def searchLoop (store : List Ticket) (queryLower : List Char) :
    List TicketId → Except HlaviError (List Ticket)
  | [] => .ok []
  | id :: rest =>
    match loadTicket store id with
    | .error e => .error e
    | .ok t =>
      match searchLoop store queryLower rest with
      | .error e => .error e
      | .ok ts => .ok (if ticketMatches queryLower t then t :: ts else ts)

/-- Models `FileStorage::search_tickets`. -/
def searchTickets (store : List Ticket) (query : List Char) :
    Except HlaviError (List Ticket) :=
  searchLoop store (toLowerChars query) (listTicketIds store)

/-! ### Claim theorems -/

/-- The allowed-transition table named by the specification. -/
def allowedTable : List (TicketStatus × TicketStatus) :=
  [(.New, .Open),
   (.Open, .InProgress), (.Open, .Closed),
   (.InProgress, .Pending), (.InProgress, .Review), (.InProgress, .Open),
   (.Pending, .Review), (.Pending, .InProgress),
   (.Review, .Done), (.Review, .InProgress),
   (.Done, .Closed), (.Done, .InProgress)]

theorem canTransitionTo_iff (a b : TicketStatus) :
    a.canTransitionTo b = true ↔ a = b ∨ (a, b) ∈ allowedTable := by
  cases a <;> cases b <;> decide

/-- C1: `transition_to` succeeds exactly on self-transitions and on the edges
of the allowed-transition table, and on every other pair fails with
`InvalidStatusTransition{from, to}`. -/
theorem transition_table_spec (t : Ticket) (b : TicketStatus)
    (r : Option (List Char)) (now : Int) :
    (t.status = b → (t.transitionTo b r now).fst = none)
    ∧ ((t.status, b) ∈ allowedTable → (t.transitionTo b r now).fst = none)
    ∧ (t.status ≠ b → (t.status, b) ∉ allowedTable →
        (t.transitionTo b r now).fst =
          some (.InvalidStatusTransition t.status.display b.display)) := by
  refine ⟨fun h => ?_, fun h => ?_, fun h1 h2 => ?_⟩
  · have hc : t.status.canTransitionTo b = true :=
      (canTransitionTo_iff _ _).mpr (Or.inl h)
    simp [Ticket.transitionTo, hc]
  · have hc : t.status.canTransitionTo b = true :=
      (canTransitionTo_iff _ _).mpr (Or.inr h)
    simp [Ticket.transitionTo, hc]
  · have hc : ¬ t.status.canTransitionTo b = true := by
      rw [canTransitionTo_iff]
      tauto
    simp [Ticket.transitionTo, hc]

/-- A fixed freshly created ticket, used to instantiate witnesses. -/
def sampleTicket : Ticket :=
  Ticket.new ⟨"HLA1".data⟩ "Test".data 0

/-- Witness for C1: on a fresh ticket (status `New`), transitioning to `Done`
fails with the expected error. -/
theorem transition_table_spec_witness :
    (sampleTicket.transitionTo .Done none 5).fst =
      some (.InvalidStatusTransition "New".data "Done".data) := by
  have h := (transition_table_spec sampleTicket .Done none 5).2.2
    (by decide) (by decide)
  exact h

/-- C4: `all_acceptance_criteria_completed` holds iff the criteria list is
non-empty and every criterion is completed; in particular it is false for an
empty list. -/
theorem all_criteria_completed_spec (t : Ticket) :
    (t.allAcceptanceCriteriaCompleted = true ↔
      t.acceptance_criteria ≠ [] ∧ ∀ ac ∈ t.acceptance_criteria, ac.completed = true)
    ∧ (t.acceptance_criteria = [] → t.allAcceptanceCriteriaCompleted = false) := by
  unfold Ticket.allAcceptanceCriteriaCompleted
  constructor
  · simp [List.isEmpty_iff, List.all_eq_true]
  · intro h
    simp [h]

/-- Witness for C4: a ticket with zero criteria is not all-completed. -/
theorem all_criteria_completed_spec_witness :
    sampleTicket.allAcceptanceCriteriaCompleted = false :=
  (all_criteria_completed_spec sampleTicket).2 rfl

/-- C5: `set_date_range(start, end)` succeeds iff `start ≤ end`, setting both
dates; otherwise it fails with `InvalidDateRange{start, end}` and leaves the
ticket unchanged. -/
theorem set_date_range_spec (t : Ticket) (s e now : Int) :
    (s ≤ e → t.setDateRange s e now =
      (none, { t with start_date := some s, end_date := some e, updated_at := now }))
    ∧ (e < s → t.setDateRange s e now =
      (some (.InvalidDateRange (rfc3339 s) (rfc3339 e)), t)) := by
  unfold Ticket.setDateRange
  constructor
  · intro h
    rw [if_neg (by omega)]
  · intro h
    rw [if_pos (by omega)]

/-- Witness for C5: a valid range is stored, an inverted range is rejected. -/
theorem set_date_range_spec_witness :
    sampleTicket.setDateRange 1 2 3 =
      (none, { sampleTicket with start_date := some 1, end_date := some 2, updated_at := 3 })
    ∧ sampleTicket.setDateRange 5 4 6 =
      (some (.InvalidDateRange (rfc3339 5) (rfc3339 4)), sampleTicket) :=
  ⟨(set_date_range_spec sampleTicket 1 2 3).1 (by decide),
   (set_date_range_spec sampleTicket 5 4 6).2 (by decide)⟩

/-- The criterion invariant: `completed_at` is set iff `completed` is true. -/
def criterionInv (ac : AcceptanceCriteria) : Prop :=
  ac.completed_at.isSome = ac.completed

/-- C6: the invariant `completed_at.isSome = completed` holds after creation
and after each of `mark_completed`, `mark_incomplete` and `toggle`; the two
marking operations write both fields together and change nothing else. -/
theorem criterion_completed_at_inv (id : Nat) (d : List Char)
    (ac : AcceptanceCriteria) (now : Int) :
    criterionInv (AcceptanceCriteria.new id d now)
    ∧ criterionInv (ac.markCompleted now)
    ∧ criterionInv ac.markIncomplete
    ∧ criterionInv (ac.toggle now)
    ∧ ac.markCompleted now = { ac with completed := true, completed_at := some now }
    ∧ ac.markIncomplete = { ac with completed := false, completed_at := none } := by
  refine ⟨rfl, rfl, rfl, ?_, rfl, rfl⟩
  unfold AcceptanceCriteria.toggle
  by_cases h : ac.completed <;>
    simp [h, criterionInv, AcceptanceCriteria.markCompleted,
      AcceptanceCriteria.markIncomplete]

/-- C7: a permitted transition sets the status, overwrites the rejection
reason with exactly the supplied value, refreshes `updated_at`, and leaves
every other field unchanged. -/
theorem transition_frame_spec (t : Ticket) (b : TicketStatus)
    (r : Option (List Char)) (now : Int)
    (h : t.status.canTransitionTo b = true) :
    t.transitionTo b r now =
      (none, { t with status := b, rejection_reason := r, updated_at := now }) := by
  simp [Ticket.transitionTo, h]

/-- Witness for C7: `New → Open` with a supplied reason. -/
theorem transition_frame_spec_witness :
    sampleTicket.transitionTo .Open (some "why".data) 7 =
      (none, { sampleTicket with status := .Open,
                                 rejection_reason := some "why".data,
                                 updated_at := 7 }) :=
  transition_frame_spec sampleTicket .Open (some "why".data) 7 (by decide)

/-- C8: `set_start_date d` fails (with `InvalidDateRange{start: d, end}`,
leaving the ticket untouched) exactly when an end date exists and is earlier
than `d`, and otherwise changes only `start_date` and `updated_at`;
`set_end_date` is symmetric. -/
theorem set_start_end_date_spec (t : Ticket) (d now : Int) :
    (∀ e, t.end_date = some e → e < d →
        t.setStartDate d now = (some (.InvalidDateRange (rfc3339 d) (rfc3339 e)), t))
    ∧ ((∀ e, t.end_date = some e → d ≤ e) →
        t.setStartDate d now = (none, { t with start_date := some d, updated_at := now }))
    ∧ (∀ s, t.start_date = some s → d < s →
        t.setEndDate d now = (some (.InvalidDateRange (rfc3339 s) (rfc3339 d)), t))
    ∧ ((∀ s, t.start_date = some s → s ≤ d) →
        t.setEndDate d now = (none, { t with end_date := some d, updated_at := now })) := by
  refine ⟨?_, ?_, ?_, ?_⟩
  · intro e he hlt
    unfold Ticket.setStartDate
    simp only [he]
    rw [if_pos (by omega)]
  · intro hall
    unfold Ticket.setStartDate
    split
    next e he =>
      have := hall e he
      rw [if_neg (by omega)]
    next he => rfl
  · intro s hs hlt
    unfold Ticket.setEndDate
    simp only [hs]
    rw [if_pos (by omega)]
  · intro hall
    unfold Ticket.setEndDate
    split
    next s hs =>
      have := hall s hs
      rw [if_neg (by omega)]
    next hs => rfl

/-- Witness for C8: a start later than the existing end is rejected with the
ticket unchanged; a valid end is stored. -/
theorem set_start_end_date_spec_witness :
    Ticket.setStartDate { sampleTicket with end_date := some 5 } 9 11 =
      (some (.InvalidDateRange (rfc3339 9) (rfc3339 5)),
        { sampleTicket with end_date := some 5 })
    ∧ Ticket.setEndDate { sampleTicket with start_date := some 5 } 7 11 =
      (none, { sampleTicket with start_date := some 5, end_date := some 7,
                                 updated_at := 11 }) := by
  constructor
  · exact (set_start_end_date_spec _ 9 11).1 5 rfl (by decide)
  · refine (set_start_end_date_spec _ 7 11).2.2.2 ?_
    intro s hs
    have hs5 : s = 5 := by
      simpa using hs.symm
    omega

/-! ### Identifier parsing: decimal digits and the parse characterization -/

theorem digitChar_isDigit {d : Nat} (h : d < 10) : (digitChar d).isDigit = true := by
  interval_cases d <;> decide

theorem digitChar_toNat {d : Nat} (h : d < 10) : (digitChar d).toNat = 48 + d := by
  interval_cases d <;> decide

theorem natDigits_ne_nil (n : Nat) : natDigits n ≠ [] := by
  rw [natDigits]
  split
  · simp
  · simp

theorem natDigits_all_digit (n : Nat) : ∀ c ∈ natDigits n, c.isDigit = true := by
  induction n using Nat.strong_induction_on with
  | _ n ih =>
    rw [natDigits]
    split
    next h =>
      intro c hc
      simp only [List.mem_singleton] at hc
      subst hc
      exact digitChar_isDigit h
    next h =>
      intro c hc
      rw [List.mem_append] at hc
      rcases hc with hc | hc
      · exact ih (n / 10) (Nat.div_lt_self (by omega) (by omega)) c hc
      · simp only [List.mem_singleton] at hc
        subst hc
        exact digitChar_isDigit (Nat.mod_lt _ (by omega))

theorem digitsVal_append_singleton (ds : List Char) (c : Char) :
    digitsVal (ds ++ [c]) = 10 * digitsVal ds + (c.toNat - 48) := by
  unfold digitsVal
  rw [List.foldl_append]
  rfl

theorem digitsVal_natDigits (n : Nat) : digitsVal (natDigits n) = n := by
  induction n using Nat.strong_induction_on with
  | _ n ih =>
    rw [natDigits]
    split
    next h =>
      have hc := digitChar_toNat h
      simp only [digitsVal, List.foldl_cons, List.foldl_nil, hc]
      omega
    next h =>
      rw [digitsVal_append_singleton,
        ih (n / 10) (Nat.div_lt_self (by omega) (by omega)),
        digitChar_toNat (Nat.mod_lt _ (by omega))]
      omega

theorem rustParse_natDigits (bound n : Nat) (h : n < bound) :
    rustParseUnsigned bound (natDigits n) = some n := by
  unfold rustParseUnsigned
  cases hnd : natDigits n with
  | nil => exact absurd hnd (natDigits_ne_nil n)
  | cons c cs =>
    have hmem : c ∈ natDigits n := by
      rw [hnd]
      exact List.mem_cons_self c cs
    have hcd : c.isDigit = true := natDigits_all_digit n c hmem
    have hcp : ¬ c = '+' := by
      intro heq
      rw [heq] at hcd
      exact absurd hcd (by decide)
    have hall : (c :: cs).all (fun ch => ch.isDigit) = true := by
      rw [← hnd]
      exact List.all_eq_true.mpr (natDigits_all_digit n)
    have hval : digitsVal (c :: cs) = n := by
      rw [← hnd, digitsVal_natDigits]
    simp [hcp, hall, hval, h]

theorem isPrefixChars_iff (p : List Char) :
    ∀ s, isPrefixChars p s = true ↔ ∃ r, s = p ++ r := by
  induction p with
  | nil =>
    intro s
    simp [isPrefixChars]
  | cons x xs ih =>
    intro s
    cases s with
    | nil =>
      simp [isPrefixChars]
    | cons y ys =>
      simp only [isPrefixChars, Bool.and_eq_true, decide_eq_true_eq, ih ys,
        List.cons_append]
      constructor
      · rintro ⟨hxy, r, hr⟩
        exact ⟨r, by rw [← hxy, hr]⟩
      · rintro ⟨r, hr⟩
        injection hr with h1 h2
        exact ⟨h1.symm, r, h2⟩

theorem rustParseUnsigned_isSome_ne_nil {b : Nat} {cs : List Char}
    (h : (rustParseUnsigned b cs).isSome = true) : cs ≠ [] := by
  intro hnil
  subst hnil
  simp [rustParseUnsigned] at h

theorem fromStr_ok_of_parse {rest : List Char}
    (h : (rustParseUnsigned u32Bound rest).isSome = true) :
    TicketId.fromStr ("HLA".data ++ rest) = .ok ⟨"HLA".data ++ rest⟩ := by
  have hrest : rest ≠ [] := rustParseUnsigned_isSome_ne_nil h
  have hpre : isPrefixChars "HLA".data ("HLA".data ++ rest) = true :=
    (isPrefixChars_iff _ _).mpr ⟨rest, rfl⟩
  have h3 : ("HLA".data).length = 3 := rfl
  have hlen : 4 ≤ ("HLA".data ++ rest).length := by
    rw [List.length_append, h3]
    have h1 : 1 ≤ rest.length := by
      cases rest with
      | nil => exact absurd rfl hrest
      | cons _ _ => simp
    omega
  have hdrop : ("HLA".data ++ rest).drop 3 = rest := by
    rw [← h3, List.drop_left]
  unfold TicketId.fromStr
  rw [if_pos ⟨hpre, hlen⟩, hdrop]
  obtain ⟨v, hv⟩ := Option.isSome_iff_exists.mp h
  rw [hv]

theorem fromStr_err_of_not (s : List Char)
    (h : ¬ ∃ rest, s = "HLA".data ++ rest ∧
      (rustParseUnsigned u32Bound rest).isSome = true) :
    TicketId.fromStr s = .error (.InvalidTicketId s) := by
  unfold TicketId.fromStr
  by_cases hc : isPrefixChars "HLA".data s = true ∧ 4 ≤ s.length
  · rw [if_pos hc]
    obtain ⟨rest, hrest⟩ := (isPrefixChars_iff _ _).mp hc.1
    subst hrest
    have h3 : ("HLA".data).length = 3 := rfl
    have hdrop : ("HLA".data ++ rest).drop 3 = rest := by
      rw [← h3, List.drop_left]
    rw [hdrop]
    cases hp : rustParseUnsigned u32Bound rest with
    | none => rfl
    | some v =>
      exact absurd ⟨rest, rfl, by rw [hp]; rfl⟩ h
  · rw [if_neg hc]

/-- C2 (amended): identifier parsing succeeds exactly on the case-sensitive
prefix `"HLA"` followed by a remainder accepted by Rust `u32` parsing (an
optional leading `'+'`, then a non-empty digit run whose value is below
`2^32`); the accepted identifier stores the input verbatim (no case
normalization), and every other input fails with `InvalidTicketId`. -/
theorem ticket_id_parse_characterization (s : List Char) :
    ((∃ rest, s = "HLA".data ++ rest ∧
        (rustParseUnsigned u32Bound rest).isSome = true) →
      TicketId.fromStr s = .ok ⟨s⟩)
    ∧ ((¬ ∃ rest, s = "HLA".data ++ rest ∧
        (rustParseUnsigned u32Bound rest).isSome = true) →
      TicketId.fromStr s = .error (.InvalidTicketId s)) := by
  constructor
  · rintro ⟨rest, rfl, hp⟩
    exact fromStr_ok_of_parse hp
  · exact fromStr_err_of_not s

/-- Witness for C2 (amended): `"HLA7"` parses to itself. -/
theorem ticket_id_parse_characterization_witness :
    TicketId.fromStr "HLA7".data = .ok ⟨"HLA7".data⟩ :=
  (ticket_id_parse_characterization "HLA7".data).1 ⟨"7".data, rfl, rfl⟩

/-- C2 counterexample: parsing is case-sensitive and does not normalize —
`"hla1"` is rejected while `"HLA1"` is accepted verbatim, contradicting the
claim that `"hla1"` and `"HLA1"` parse to equal identifiers. -/
theorem ticket_id_parse_case_sensitive_cex :
    TicketId.fromStr "hla1".data = .error (.InvalidTicketId "hla1".data)
    ∧ TicketId.fromStr "HLA1".data = .ok ⟨"HLA1".data⟩ :=
  ⟨rfl, rfl⟩

/-- C9: for every positive `u32` counter, the formatted identifier parses
back to itself. -/
theorem ticket_id_roundtrip (n : Nat) (_hpos : 0 < n) (hlt : n < u32Bound) :
    TicketId.fromStr (TicketId.new n).str = .ok (TicketId.new n) := by
  have h : (rustParseUnsigned u32Bound (natDigits n)).isSome = true := by
    rw [rustParse_natDigits u32Bound n hlt]
    rfl
  exact fromStr_ok_of_parse h

/-- Witness for C9: the counter 42 round-trips. -/
theorem ticket_id_roundtrip_witness :
    TicketId.fromStr (TicketId.new 42).str = .ok (TicketId.new 42) :=
  ticket_id_roundtrip 42 (by decide) (by decide)

/-! ### Criterion removal (C10) -/

theorem findIdx?_first_match (p : α → Bool) (pre : List α) (c : α)
    (post : List α) :
    ∀ i, (∀ x ∈ pre, p x = false) → p c = true →
      (pre ++ c :: post).findIdx? p i = some (i + pre.length) := by
  induction pre with
  | nil =>
    intro i _ hc
    simp [List.findIdx?_cons, hc]
  | cons y ys ih =>
    intro i hpre hc
    have hy : p y = false := hpre y (List.mem_cons_self y ys)
    have hrec := ih (i + 1) (fun x hx => hpre x (List.mem_cons_of_mem y hx)) hc
    simp only [List.cons_append, List.findIdx?_cons, hy, Bool.false_eq_true,
      if_false, hrec, List.length_cons]
    congr 1
    omega

theorem eraseIdx_append_cons (pre : List α) (c : α) (post : List α) :
    (pre ++ c :: post).eraseIdx pre.length = pre ++ post := by
  induction pre with
  | nil => simp
  | cons y ys ih => simp [ih]

/-- C10: `remove_acceptance_criterion` gives strict precedence to positional
removal — whenever the identifier parses as a `usize` `k` with
`1 ≤ k ≤ #criteria`, the criterion at (1-based) position `k` is removed and
descriptions are never consulted; only otherwise does it remove the first
criterion whose description equals the identifier exactly, failing with
`AcceptanceCriteriaNotFound` when none does. -/
theorem remove_criterion_spec (t : Ticket) (ident : List Char) (now : Int) :
    (∀ k, rustParseUnsigned usizeBound ident = some k →
      0 < k → k ≤ t.acceptance_criteria.length →
      t.removeAcceptanceCriterion ident now =
        (none, { t with
          acceptance_criteria := t.acceptance_criteria.eraseIdx (k - 1),
          updated_at := now }))
    ∧ ((∀ k, rustParseUnsigned usizeBound ident = some k →
          k = 0 ∨ t.acceptance_criteria.length < k) →
      (∀ pre c post, t.acceptance_criteria = pre ++ c :: post →
        (∀ x ∈ pre, x.description ≠ ident) → c.description = ident →
        t.removeAcceptanceCriterion ident now =
          (none, { t with acceptance_criteria := pre ++ post, updated_at := now }))
      ∧ ((∀ ac ∈ t.acceptance_criteria, ac.description ≠ ident) →
        t.removeAcceptanceCriterion ident now = (some .AcceptanceCriteriaNotFound, t))) := by
  constructor
  · intro k hk h0 hlen
    simp only [Ticket.removeAcceptanceCriterion, hk]
    rw [if_pos ⟨h0, hlen⟩]
  · intro hrange
    have hfall : t.removeAcceptanceCriterion ident now =
        removeCriterionByDescription t ident now := by
      unfold Ticket.removeAcceptanceCriterion
      split
      next k hp =>
        have := hrange k hp
        rw [if_neg (by omega)]
      next => rfl
    constructor
    · intro pre c post hsplit hpre hc
      have hpre' : ∀ x ∈ pre, (fun ac => decide (ac.description = ident)) x = false := by
        intro x hx
        simpa using hpre x hx
      have hc' : (fun ac => decide (ac.description = ident)) c = true := by
        simpa using hc
      rw [hfall]
      unfold removeCriterionByDescription
      rw [hsplit, findIdx?_first_match _ pre c post 0 hpre' hc']
      simp [eraseIdx_append_cons]
    · intro hnone
      have hfind : t.acceptance_criteria.findIdx?
          (fun ac => decide (ac.description = ident)) = none := by
        rw [List.findIdx?_eq_none_iff]
        intro x hx
        simpa using hnone x hx
      rw [hfall]
      unfold removeCriterionByDescription
      rw [hfind]

/-- Witness for C10: on a ticket with criteria `["first", "2"]`, the
identifier `"2"` removes position 2 (the criterion described `"2"` happens to
sit there, but the removal is positional), while `"first"` removes by
description. -/
theorem remove_criterion_spec_witness :
    Ticket.removeAcceptanceCriterion
        ((sampleTicket.addAcceptanceCriterion "first".data 0).addAcceptanceCriterion
          "2".data 0) "2".data 4 =
      (none, { (sampleTicket.addAcceptanceCriterion "first".data 0).addAcceptanceCriterion
                  "2".data 0 with
        acceptance_criteria :=
          (((sampleTicket.addAcceptanceCriterion "first".data 0).addAcceptanceCriterion
            "2".data 0).acceptance_criteria).eraseIdx 1,
        updated_at := 4 }) :=
  (remove_criterion_spec
    ((sampleTicket.addAcceptanceCriterion "first".data 0).addAcceptanceCriterion
      "2".data 0) "2".data 4).1 2 rfl (by decide) (by decide)

/-! ### Search over the stored tickets (C3) -/

/-- Tickets ordered by the comparison `list_ticket_ids` applies to their
identifier strings. -/
def ticketLe (a b : Ticket) : Bool :=
  ticketIdLe a.id b.id

/-- The stored tickets in the order their identifiers are listed. -/
def sortTickets (store : List Ticket) : List Ticket :=
  sortByLe ticketLe store

theorem insertLe_map (f : α → β) (le : β → β → Bool) (x : α) (l : List α) :
    insertLe le (f x) (l.map f) = (insertLe (fun a b => le (f a) (f b)) x l).map f := by
  induction l with
  | nil => rfl
  | cons y ys ih =>
    by_cases h : le (f x) (f y) <;> simp [insertLe, h, ih]

theorem sortByLe_map (f : α → β) (le : β → β → Bool) (l : List α) :
    sortByLe le (l.map f) = (sortByLe (fun a b => le (f a) (f b)) l).map f := by
  induction l with
  | nil => rfl
  | cons y ys ih => simp only [List.map_cons, sortByLe, ih, insertLe_map]

theorem insertLe_perm (le : α → α → Bool) (x : α) (l : List α) :
    List.Perm (insertLe le x l) (x :: l) := by
  induction l with
  | nil => exact List.Perm.refl _
  | cons y ys ih =>
    simp only [insertLe]
    by_cases h : le x y
    · rw [if_pos h]
    · rw [if_neg h]
      exact (ih.cons y).trans (List.Perm.swap x y ys)

theorem sortByLe_perm (le : α → α → Bool) (l : List α) :
    List.Perm (sortByLe le l) l := by
  induction l with
  | nil => exact List.Perm.refl _
  | cons y ys ih =>
    exact (insertLe_perm le y (sortByLe le ys)).trans (ih.cons y)

theorem find?_of_nodup_ids (store : List Ticket) (t : Ticket)
    (hnd : (store.map (fun u => u.id)).Nodup) (ht : t ∈ store) :
    store.find? (fun u => decide (u.id = t.id)) = some t := by
  induction store with
  | nil => cases ht
  | cons u rest ih =>
    rw [List.map_cons, List.nodup_cons] at hnd
    obtain ⟨hnotin, hnd'⟩ := hnd
    by_cases h : u.id = t.id
    · have htu : t = u := by
        rcases List.mem_cons.mp ht with rfl | hmem
        · rfl
        · exact absurd (h ▸ List.mem_map_of_mem (fun u => u.id) hmem) hnotin
      subst htu
      rw [List.find?_cons_of_pos _ (by simp)]
    · have hmem : t ∈ rest := by
        rcases List.mem_cons.mp ht with rfl | hmem
        · exact absurd rfl h
        · exact hmem
      rw [List.find?_cons_of_neg _ (by simpa using h)]
      exact ih hnd' hmem

theorem searchLoop_map_filter (store : List Ticket) (ql : List Char)
    (l : List Ticket)
    (h : ∀ t ∈ l, store.find? (fun u => decide (u.id = t.id)) = some t) :
    searchLoop store ql (l.map (fun t => t.id)) = .ok (l.filter (ticketMatches ql)) := by
  induction l with
  | nil => rfl
  | cons t rest ih =>
    have hload : loadTicket store t.id = .ok t := by
      unfold loadTicket
      rw [h t (List.mem_cons_self t rest)]
    have hrest := ih (fun x hx => h x (List.mem_cons_of_mem t hx))
    simp only [List.map_cons, searchLoop, hload, hrest]
    rw [List.filter_cons]

/-- Claim-side substring predicate: `needle` occurs contiguously in `hay`. -/
def substringOf (needle hay : List Char) : Prop :=
  ∃ l r, hay = l ++ needle ++ r

/-- Claim-side match predicate of the search: the lowered query occurs in the
lowered title, in the lowered description when one is present, or in some
lowered acceptance-criterion description. -/
def matchesQuerySpec (query : List Char) (t : Ticket) : Prop :=
  substringOf (toLowerChars query) (toLowerChars t.title)
  ∨ (∃ d, t.description = some d ∧ substringOf (toLowerChars query) (toLowerChars d))
  ∨ (∃ ac ∈ t.acceptance_criteria, substringOf (toLowerChars query) (toLowerChars ac.description))

theorem containsSub_iff (hay needle : List Char) :
    containsSub hay needle = true ↔ ∃ l r, hay = l ++ needle ++ r := by
  induction hay with
  | nil =>
    simp only [containsSub, List.isEmpty_iff]
    constructor
    · intro h
      exact ⟨[], [], by simp [h]⟩
    · rintro ⟨l, r, h⟩
      obtain ⟨-, hn, -⟩ : l = [] ∧ needle = [] ∧ r = [] := by
        simpa [List.append_eq_nil] using h.symm
      exact hn
  | cons c rest ih =>
    simp only [containsSub, Bool.or_eq_true, isPrefixChars_iff, ih]
    constructor
    · rintro (⟨r, hr⟩ | ⟨l, r, hr⟩)
      · exact ⟨[], r, by simpa using hr⟩
      · exact ⟨c :: l, r, by simp [hr]⟩
    · rintro ⟨l, r, hr⟩
      cases l with
      | nil =>
        left
        exact ⟨r, by simpa using hr⟩
      | cons a l' =>
        right
        rw [List.cons_append] at hr
        injection hr with h1 h2
        exact ⟨l', r, h2⟩

theorem ticketMatches_iff (q : List Char) (t : Ticket) :
    ticketMatches (toLowerChars q) t = true ↔ matchesQuerySpec q t := by
  unfold ticketMatches matchesQuerySpec substringOf
  cases hd : t.description with
  | none => simp [hd, List.any_eq_true, containsSub_iff]
  | some d =>
    simp only [hd, List.any_eq_true, containsSub_iff, Bool.or_eq_true,
      Option.some.injEq, exists_eq_left']
    exact or_assoc

/-- C3: `search_tickets(query)` returns exactly the stored tickets the query
matches case-insensitively (in title, present description, or some
acceptance-criterion description), in `list_ticket_ids` order — the
lexicographic order of the canonical identifier strings. -/
theorem search_tickets_spec (store : List Ticket) (query : List Char)
    (hnd : (store.map (fun t => t.id)).Nodup) :
    listTicketIds store = (sortTickets store).map (fun t => t.id)
    ∧ searchTickets store query =
        .ok ((sortTickets store).filter (ticketMatches (toLowerChars query)))
    ∧ (∀ t, ticketMatches (toLowerChars query) t = true ↔ matchesQuerySpec query t) := by
  have hids : listTicketIds store = (sortTickets store).map (fun t => t.id) := by
    unfold listTicketIds sortTickets ticketLe
    exact sortByLe_map (fun t => t.id) ticketIdLe store
  refine ⟨hids, ?_, fun t => ticketMatches_iff query t⟩
  unfold searchTickets
  rw [hids]
  have hperm : List.Perm (sortTickets store) store := sortByLe_perm ticketLe store
  apply searchLoop_map_filter
  intro t ht
  exact find?_of_nodup_ids store t hnd ((List.Perm.mem_iff hperm).mp ht)

/-- The spec's search scenario: a ticket whose only acceptance criterion is
"User can login". -/
def loginTicket : Ticket :=
  (Ticket.new ⟨"HLA1".data⟩ "Test Ticket".data 0).addAcceptanceCriterion
    "User can login".data 0

/-- Witness for C3: searching "login" over a store holding exactly
`loginTicket` returns exactly that ticket. -/
theorem search_tickets_spec_witness :
    searchTickets [loginTicket] "login".data = .ok [loginTicket] := by
  have h := (search_tickets_spec [loginTicket] "login".data (by decide)).2.1
  rw [h]
  rfl

end Hlavi
